import Mathlib

/-! Shallow embedding of the Nine Square game engine
(src/orthogonal_checkers.py, class NineSquare).

Pixel rendering, mouse-to-pixel translation and button hit-testing are
presentation-layer glue; the engine is embedded over abstract board
positions.  A board click at pixel coordinates is modelled as
`Action.click p` where `p` is the (row, col) cell the pixel falls in
(possibly out of bounds, exactly as in the source where the converted
coordinates are bounds-checked), and a click on the End Turn button is
modelled as `Action.endTurnClick` (the button lies in the footer below
the board, so when it is ignored the converted cell has row 8, which is
out of bounds and falls through to the early bounds-check return, i.e. a
no-op — matching the model).  The `button_hovered` field and
`handle_mouse_motion` are pure presentation state and are omitted.
-/

namespace NineSquare

/-- A unit on the board: PLAYER1 = 'P1', PLAYER2 = 'P2' in the source. -/
inductive Player where
  | P1 : Player
  | P2 : Player
deriving DecidableEq, Repr

/-- A cell holds a player's unit or EMPTY = None. -/
abbrev Cell := Option Player

/-- A (row, col) pair; the source uses Python ints, so we use ℤ and
bounds-check explicitly, as the source does. -/
abbrev Pos := Int × Int

/-- The board, `self.board`.  The source stores an 8x8 list of lists; we
use a total function on ℤ × ℤ whose out-of-bounds values are never read
(every read in the engine is guarded by `_is_valid_position`, except reads
at the selected unit and at already-validated click cells, which are
in bounds in every reachable state). -/
abbrev Board := Pos → Cell

/-- BOARD_SIZE = 8. -/
def BOARD_SIZE : Int := 8

/-- Source `_is_valid_position`: 0 <= row < BOARD_SIZE and 0 <= col < BOARD_SIZE. -/
def isValidPosition (p : Pos) : Bool :=
  decide (0 ≤ p.1 ∧ p.1 < BOARD_SIZE ∧ 0 ≤ p.2 ∧ p.2 < BOARD_SIZE)

/-- Source `_initialize_board`: Player 1 in the top-left 3x3 (rows 0-2, cols 0-2),
Player 2 in the bottom-right 3x3 (rows 5-7, cols 5-7), all else EMPTY. -/
def initialBoard : Board := fun p =>
  if 0 ≤ p.1 ∧ p.1 ≤ 2 ∧ 0 ≤ p.2 ∧ p.2 ≤ 2 then some Player.P1
  else if 5 ≤ p.1 ∧ p.1 ≤ 7 ∧ 5 ≤ p.2 ∧ p.2 ≤ 7 then some Player.P2
  else none

/-- The four orthogonal directions, in source order:
north, south, east, west = [(-1, 0), (1, 0), (0, 1), (0, -1)]. -/
def directions : List (Int × Int) := [(-1, 0), (1, 0), (0, 1), (0, -1)]

/-- Source `_get_simple_moves`: for each orthogonal direction, the neighbouring
cell if it is in bounds and EMPTY.  Note the source never inspects the
cell at (row, col) itself. -/
def getSimpleMoves (b : Board) (p : Pos) : Finset Pos :=
  ((directions.map (fun d => (p.1 + d.1, p.2 + d.2))).filter
    (fun q => isValidPosition q && decide (b q = none))).toFinset

/-- Source `_get_jump_moves`: for each orthogonal direction, if the adjacent cell
holds ANY piece (own or opponent) and the landing cell one further is in
bounds and EMPTY, the landing cell is a jump target.  The source binds
`player = self.board[row][col]` and never uses it; the unused binding is
kept. -/
def getJumpMoves (b : Board) (p : Pos) : Finset Pos :=
  let _player := b p
  (directions.filterMap (fun d =>
    let adj : Pos := (p.1 + d.1, p.2 + d.2)
    let land : Pos := (adj.1 + d.1, adj.2 + d.2)
    if isValidPosition adj = true ∧ b adj ≠ none ∧
       isValidPosition land = true ∧ b land = none
    then some land else none)).toFinset

/-- Source `_is_in_home_area`: Player 1's target is the bottom-right 3x3,
anything else (i.e. Player 2) targets the top-left 3x3. -/
def isInHomeArea (p : Pos) (player : Player) : Bool :=
  match player with
  | Player.P1 => decide (5 ≤ p.1 ∧ p.1 ≤ 7 ∧ 5 ≤ p.2 ∧ p.2 ≤ 7)
  | Player.P2 => decide (0 ≤ p.1 ∧ p.1 ≤ 2 ∧ 0 ≤ p.2 ∧ p.2 ≤ 2)

/-- The 64 board cells scanned by `_check_win_condition`'s loops. -/
def boardCells : Finset Pos := Finset.Icc (0 : Int) 7 ×ˢ Finset.Icc (0 : Int) 7

/-- Source `_check_win_condition`: collect each player's units, test whether all
of Player 1's units are in Player 1's target area (checked first), then
Player 2's. -/
def checkWinCondition (b : Board) : Option Player :=
  let p1Units := boardCells.filter (fun p => b p = some Player.P1)
  let p2Units := boardCells.filter (fun p => b p = some Player.P2)
  if ∀ p ∈ p1Units, isInHomeArea p Player.P1 = true then some Player.P1
  else if ∀ p ∈ p2Units, isInHomeArea p Player.P2 = true then some Player.P2
  else none

/-- Point update of a board cell, `self.board[r][c] = v`. -/
def updateBoard (b : Board) (p : Pos) (v : Cell) : Board :=
  fun q => if q = p then v else b q

/-- Source `_perform_jump`: `board[to] = board[from]; board[from] = EMPTY`.
The jumped-over unit is NOT removed. -/
def performJump (b : Board) (src tgt : Pos) : Board :=
  updateBoard (updateBoard b tgt (b src)) src none

/-- Source `_perform_simple_move`: same two assignments as `_perform_jump`. -/
def performSimpleMove (b : Board) (src tgt : Pos) : Board :=
  updateBoard (updateBoard b tgt (b src)) src none

/-- The mutable game state of the `NineSquare` object (presentation-only
fields omitted). -/
structure GameState where
  board : Board
  current_player : Player
  selected_unit : Option Pos
  possible_moves : Finset Pos
  possible_jumps : Finset Pos
  game_over : Bool
  winner : Option Player
  in_jump_sequence : Bool

/-- The state set up by `__init__`. -/
def initState : GameState :=
  { board := initialBoard
    current_player := Player.P1
    selected_unit := none
    possible_moves := ∅
    possible_jumps := ∅
    game_over := false
    winner := none
    in_jump_sequence := false }

/-- Source expression `PLAYER2 if self.current_player == PLAYER1 else PLAYER1`. -/
def otherPlayer : Player → Player
  | Player.P1 => Player.P2
  | Player.P2 => Player.P1

/-- Source `_deselect_unit`: clear the selection, both move sets and the
jump-sequence flag. -/
def deselectUnit (s : GameState) : GameState :=
  { s with selected_unit := none
           possible_moves := ∅
           possible_jumps := ∅
           in_jump_sequence := false }

/-- Source `_end_turn`: deselect, check the win condition; on a winner set
game_over and winner, otherwise switch the current player. -/
def endTurn (s : GameState) : GameState :=
  let s' := deselectUnit s
  match checkWinCondition s'.board with
  | some w => { s' with game_over := true, winner := some w }
  | none => { s' with current_player := otherPlayer s'.current_player }

/-- The two assignments shared by the selection branches of
`handle_click` (lines 198-201 and 234-237): select the clicked unit and
compute both move sets for it. -/
def selectUnit (s : GameState) (p : Pos) : GameState :=
  { s with selected_unit := some p
           possible_moves := getSimpleMoves s.board p
           possible_jumps := getJumpMoves s.board p }

/-- An abstract user input: a click converted to a board cell (possibly
out of bounds), or a click on the End Turn button. -/
inductive Action where
  | click (p : Pos) : Action
  | endTurnClick : Action

/-- Source `handle_click`, over abstract actions.  Branch order follows the
source exactly: game-over guard, End-Turn-button guard (only active
during a jump sequence), bounds check, selection, same-unit deselect,
jump, simple move, switch selection, deselect. -/
def handleClick (s : GameState) (a : Action) : GameState :=
  if s.game_over = true then s
  else
    match a with
    | Action.endTurnClick =>
        if s.in_jump_sequence = true then endTurn s else s
    | Action.click p =>
        if isValidPosition p = true then
          match s.selected_unit with
          | none =>
              if s.board p = some s.current_player then selectUnit s p else s
          | some sel =>
              if p = sel then deselectUnit s
              else if p ∈ s.possible_jumps then
                let b' := performJump s.board sel p
                let newJumps := getJumpMoves b' p
                if newJumps ≠ ∅ then
                  { s with board := b'
                           in_jump_sequence := true
                           selected_unit := some p
                           possible_moves := ∅
                           possible_jumps := newJumps }
                else endTurn { s with board := b' }
              else if p ∈ s.possible_moves ∧ s.in_jump_sequence = false then
                endTurn { s with board := performSimpleMove s.board sel p }
              else if s.board p = some s.current_player ∧
                      s.in_jump_sequence = false then
                selectUnit s p
              else if s.in_jump_sequence = false then deselectUnit s
              else s
        else s

/-- The states reachable from the initialized game by any sequence of
user actions. -/
inductive Reachable : GameState → Prop where
  | init : Reachable initState
  | step {s : GameState} (a : Action) : Reachable s → Reachable (handleClick s a)

/-- Number of cells of the board holding a unit of the given player. -/
def countPieces (b : Board) (pl : Player) : Nat :=
  (boardCells.filter (fun p => b p = some pl)).card

/-- State invariant carried through the induction: both piece counts are
9, the selected unit (if any) is an in-bounds cell holding the current
player's unit, and every stored candidate move or jump target is an
in-bounds EMPTY cell. -/
def Inv (s : GameState) : Prop :=
  countPieces s.board Player.P1 = 9 ∧
  countPieces s.board Player.P2 = 9 ∧
  (∀ sel, s.selected_unit = some sel →
      s.board sel = some s.current_player ∧ isValidPosition sel = true) ∧
  (∀ q ∈ s.possible_moves, s.board q = none ∧ isValidPosition q = true) ∧
  (∀ q ∈ s.possible_jumps, s.board q = none ∧ isValidPosition q = true)

/-- A concrete opening: Player 1 walks a unit to (2,2) with a unit behind
it at (3,2) (Player 2 answers with two simple moves), then jumps
(2,2) → (4,2).  From (4,2) a further jump over (3,2) back to (2,2)
exists, so the jump lands in a jump sequence. -/
def jumpChainClicks : List Action :=
  [Action.click (2, 2), Action.click (3, 2), Action.click (5, 5), Action.click (4, 5),
   Action.click (1, 2), Action.click (2, 2), Action.click (5, 6), Action.click (4, 6),
   Action.click (2, 2)]

/-- The reachable state just after the ninth click: Player 1 has (2,2)
selected with the single jump target (4,2). -/
def preJumpState : GameState := jumpChainClicks.foldl handleClick initState

/-- The reachable state after the jump (2,2) → (4,2): mid jump-sequence,
(4,2) selected, further jump target (2,2). -/
def jumpChainState : GameState := handleClick preJumpState (Action.click (4, 2))

/-- A finished game, for exercising the game-over guard. -/
def gameOverState : GameState := { initState with game_over := true }

/-- A board with a single unit at (3,2): from the EMPTY cell (2,2) it
offers the jump landing cell (4,2). -/
def jumpDemoBoard : Board :=
  fun q => if q = ((3 : Int), (2 : Int)) then some Player.P1 else none

/-- Board `jumpDemoBoard` with the queried cell (2,2) changed from EMPTY to a
Player 2 unit; the two boards differ only at (2,2). -/
def jumpDemoBoard2 : Board :=
  fun q => if q = ((2 : Int), (2 : Int)) then some Player.P2 else jumpDemoBoard q

/-- A board on which both win conditions hold at once: all Player 1 units
sit in rows 5-7, cols 5-7 and all Player 2 units in rows 0-2, cols 0-2. -/
def bothHomeBoard : Board := fun p =>
  if 5 ≤ p.1 ∧ p.1 ≤ 7 ∧ 5 ≤ p.2 ∧ p.2 ≤ 7 then some Player.P1
  else if 0 ≤ p.1 ∧ p.1 ≤ 2 ∧ 0 ≤ p.2 ∧ p.2 ≤ 2 then some Player.P2
  else none

end NineSquare

namespace NineSquare

/-! ### Helper lemmas about the move generators -/

theorem mem_boardCells (p : Pos) : p ∈ boardCells ↔ isValidPosition p = true := by
  simp only [boardCells, Finset.mem_product, Finset.mem_Icc, isValidPosition,
    BOARD_SIZE, decide_eq_true_eq]
  omega

theorem mem_getSimpleMoves (b : Board) (p q : Pos) :
    q ∈ getSimpleMoves b p ↔
      (∃ d ∈ directions, q = (p.1 + d.1, p.2 + d.2)) ∧
      isValidPosition q = true ∧ b q = none := by
  simp only [getSimpleMoves, List.mem_toFinset, List.mem_filter, List.mem_map,
    Bool.and_eq_true, decide_eq_true_eq]
  constructor
  · rintro ⟨⟨d, hd, rfl⟩, h1, h2⟩
    exact ⟨⟨d, hd, rfl⟩, h1, h2⟩
  · rintro ⟨⟨d, hd, rfl⟩, h1, h2⟩
    exact ⟨⟨d, hd, rfl⟩, h1, h2⟩

theorem mem_getJumpMoves (b : Board) (p q : Pos) :
    q ∈ getJumpMoves b p ↔
      ∃ d ∈ directions,
        isValidPosition (p.1 + d.1, p.2 + d.2) = true ∧
        b (p.1 + d.1, p.2 + d.2) ≠ none ∧
        isValidPosition (p.1 + d.1 + d.1, p.2 + d.2 + d.2) = true ∧
        b (p.1 + d.1 + d.1, p.2 + d.2 + d.2) = none ∧
        q = (p.1 + d.1 + d.1, p.2 + d.2 + d.2) := by
  simp only [getJumpMoves, List.mem_toFinset, List.mem_filterMap,
    Option.ite_none_right_eq_some, Option.some.injEq]
  constructor
  · rintro ⟨d, hd, ⟨h1, h2, h3, h4⟩, rfl⟩
    exact ⟨d, hd, h1, h2, h3, h4, rfl⟩
  · rintro ⟨d, hd, h1, h2, h3, h4, rfl⟩
    exact ⟨d, hd, ⟨h1, h2, h3, h4⟩, rfl⟩

theorem getSimpleMoves_target_empty (b : Board) (p : Pos) :
    ∀ q ∈ getSimpleMoves b p, b q = none ∧ isValidPosition q = true := by
  intro q hq
  rw [mem_getSimpleMoves] at hq
  exact ⟨hq.2.2, hq.2.1⟩

theorem getJumpMoves_target_empty (b : Board) (p : Pos) :
    ∀ q ∈ getJumpMoves b p, b q = none ∧ isValidPosition q = true := by
  intro q hq
  rw [mem_getJumpMoves] at hq
  obtain ⟨d, hd, _, _, h3, h4, rfl⟩ := hq
  exact ⟨h4, h3⟩

theorem getJumpMoves_ne_source (b : Board) (p q : Pos) (h : q ∈ getJumpMoves b p) :
    q ≠ p := by
  rw [mem_getJumpMoves] at h
  obtain ⟨d, hd, _, _, _, _, rfl⟩ := h
  simp only [directions, List.mem_cons, List.not_mem_nil, or_false] at hd
  rcases hd with rfl | rfl | rfl | rfl <;>
    (intro hc; have h1 := congrArg Prod.fst hc; have h2 := congrArg Prod.snd hc;
     simp only at h1 h2; omega)

end NineSquare

namespace NineSquare

/-! ### C2 — simple-move generation -/

/-- C2 counterexample: on the initial board the cell (4,4) is EMPTY, yet
`_get_simple_moves` returns a non-empty set for it (all four neighbours
are EMPTY), because the function never inspects the queried cell. -/
theorem simpleMoves_empty_cell_counterexample :
    initialBoard (4, 4) = none ∧ getSimpleMoves initialBoard (4, 4) ≠ ∅ := by
  decide

/-- C2 amended: for every board and position, `_get_simple_moves` returns
exactly the orthogonally-adjacent in-bounds EMPTY cells, regardless of
the contents of the queried cell (no piece-at-pos precondition exists). -/
theorem simpleMoves_characterization (b : Board) (p q : Pos) :
    q ∈ getSimpleMoves b p ↔
      (∃ d ∈ directions, q = (p.1 + d.1, p.2 + d.2)) ∧
      isValidPosition q = true ∧ b q = none :=
  mem_getSimpleMoves b p q

/-- C2 amended, exercised: (3,4) is an adjacent EMPTY cell of the EMPTY
cell (4,4) on the initial board, hence a returned simple move. -/
theorem simpleMoves_characterization_witness :
    ((3 : Int), (4 : Int)) ∈ getSimpleMoves initialBoard (4, 4) :=
  (simpleMoves_characterization initialBoard (4, 4) (3, 4)).mpr
    ⟨⟨(-1, 0), by decide, by decide⟩, by decide, by decide⟩

/-! ### C4 — jump-move generation -/

/-- C4: `_get_jump_moves` returns exactly the landing cells two steps
away in an orthogonal direction whose intermediate cell holds any piece
and whose landing cell is in bounds and EMPTY; every landing cell is at
orthogonal distance exactly 2, and there are at most 4 of them. -/
theorem jumpMoves_characterization (b : Board) (p : Pos) :
    (∀ q, q ∈ getJumpMoves b p ↔
      ∃ d ∈ directions,
        isValidPosition (p.1 + d.1, p.2 + d.2) = true ∧
        b (p.1 + d.1, p.2 + d.2) ≠ none ∧
        isValidPosition (p.1 + d.1 + d.1, p.2 + d.2 + d.2) = true ∧
        b (p.1 + d.1 + d.1, p.2 + d.2 + d.2) = none ∧
        q = (p.1 + d.1 + d.1, p.2 + d.2 + d.2)) ∧
    (∀ q ∈ getJumpMoves b p,
      (q.1 - p.1).natAbs + (q.2 - p.2).natAbs = 2 ∧ (q.1 = p.1 ∨ q.2 = p.2)) ∧
    (getJumpMoves b p).card ≤ 4 := by
  refine ⟨mem_getJumpMoves b p, ?_, ?_⟩
  · intro q hq
    rw [mem_getJumpMoves] at hq
    obtain ⟨d, hd, _, _, _, _, rfl⟩ := hq
    simp only [directions, List.mem_cons, List.not_mem_nil, or_false] at hd
    rcases hd with rfl | rfl | rfl | rfl <;> simp <;> omega
  · have h1 : (getJumpMoves b p).card ≤ (directions.filterMap (fun d =>
        if isValidPosition (p.1 + d.1, p.2 + d.2) = true ∧
           b (p.1 + d.1, p.2 + d.2) ≠ none ∧
           isValidPosition (p.1 + d.1 + d.1, p.2 + d.2 + d.2) = true ∧
           b (p.1 + d.1 + d.1, p.2 + d.2 + d.2) = none
        then some (p.1 + d.1 + d.1, p.2 + d.2 + d.2) else none)).length := by
      apply List.toFinset_card_le
    calc (getJumpMoves b p).card
        ≤ _ := h1
      _ ≤ directions.length := List.length_filterMap_le _ _
      _ = 4 := rfl

/-- C4, exercised: on `jumpDemoBoard` the query from (2,2) (whose south
neighbour (3,2) is occupied, landing (4,2) EMPTY) returns the landing
cell (4,2). -/
theorem jumpMoves_characterization_witness :
    ((4 : Int), (2 : Int)) ∈ getJumpMoves jumpDemoBoard (2, 2) :=
  ((jumpMoves_characterization jumpDemoBoard (2, 2)).1 (4, 2)).mpr
    ⟨(1, 0), by decide, by decide, by decide, by decide, by decide, by decide⟩

/-! ### C5 — jump application frame -/

/-- C5: when `to` is a jump target of `from`, `_perform_jump` moves the
unit ( `to` receives the unit that was at `from`, `from` becomes EMPTY)
and every other cell — in particular the jumped-over intermediate
cell — keeps its previous contents; the jumped unit is never removed. -/
theorem applyJump_frame (b : Board) (src tgt : Pos)
    (h : tgt ∈ getJumpMoves b src) :
    performJump b src tgt tgt = b src ∧
    performJump b src tgt src = none ∧
    (∀ q, q ≠ src → q ≠ tgt → performJump b src tgt q = b q) ∧
    (∀ d ∈ directions, tgt = (src.1 + d.1 + d.1, src.2 + d.2 + d.2) →
      performJump b src tgt (src.1 + d.1, src.2 + d.2) =
        b (src.1 + d.1, src.2 + d.2)) := by
  have hne : tgt ≠ src := getJumpMoves_ne_source b src tgt h
  have hframe : ∀ q, q ≠ src → q ≠ tgt → performJump b src tgt q = b q := by
    intro q h1 h2
    simp [performJump, updateBoard, h1, h2]
  refine ⟨?_, ?_, hframe, ?_⟩
  · simp [performJump, updateBoard, hne]
  · simp [performJump, updateBoard]
  · intro d hd htgt
    simp only [directions, List.mem_cons, List.not_mem_nil, or_false] at hd
    apply hframe <;> subst htgt <;>
      rcases hd with rfl | rfl | rfl | rfl <;>
      (intro hc; have h1 := congrArg Prod.fst hc; have h2 := congrArg Prod.snd hc;
       simp only at h1 h2; omega)

/-- C5, exercised: the jump (2,2) → (4,2) over the unit at (3,2) on
`jumpDemoBoard` leaves the jumped-over cell (3,2) unchanged. -/
theorem applyJump_frame_witness :
    performJump jumpDemoBoard (2, 2) (4, 2) (3, 2) = jumpDemoBoard (3, 2) :=
  (applyJump_frame jumpDemoBoard (2, 2) (4, 2) (by decide)).2.2.1 (3, 2)
    (by decide) (by decide)

/-! ### C10 — jump generation ignores the queried cell -/

/-- C10: `_get_jump_moves` never uses the contents of the queried cell:
two boards that agree everywhere except possibly at `p` produce the same
jump set from `p` (the source binds the cell's value but never reads it). -/
theorem jumpMoves_ignores_source (b1 b2 : Board) (p : Pos)
    (h : ∀ q, q ≠ p → b1 q = b2 q) :
    getJumpMoves b1 p = getJumpMoves b2 p := by
  have key : ∀ d ∈ directions,
      b1 (p.1 + d.1, p.2 + d.2) = b2 (p.1 + d.1, p.2 + d.2) ∧
      b1 (p.1 + d.1 + d.1, p.2 + d.2 + d.2) = b2 (p.1 + d.1 + d.1, p.2 + d.2 + d.2) := by
    intro d hd
    simp only [directions, List.mem_cons, List.not_mem_nil, or_false] at hd
    constructor <;> apply h <;>
      rcases hd with rfl | rfl | rfl | rfl <;>
      (intro hc; have h1 := congrArg Prod.fst hc; have h2 := congrArg Prod.snd hc;
       simp only at h1 h2; omega)
  ext q
  rw [mem_getJumpMoves, mem_getJumpMoves]
  constructor
  · rintro ⟨d, hd, h1, h2, h3, h4, rfl⟩
    obtain ⟨k1, k2⟩ := key d hd
    exact ⟨d, hd, h1, k1 ▸ h2, h3, k2 ▸ h4, rfl⟩
  · rintro ⟨d, hd, h1, h2, h3, h4, rfl⟩
    obtain ⟨k1, k2⟩ := key d hd
    exact ⟨d, hd, h1, k1.symm ▸ h2, h3, k2.symm ▸ h4, rfl⟩

/-- C10, exercised: `jumpDemoBoard` and `jumpDemoBoard2` differ only at
(2,2) ( EMPTY versus a Player 2 unit), yet yield the same jump set from
(2,2) — and that set is non-empty although (2,2) is EMPTY on
`jumpDemoBoard`. -/
theorem jumpMoves_ignores_source_witness :
    getJumpMoves jumpDemoBoard (2, 2) = getJumpMoves jumpDemoBoard2 (2, 2) ∧
    jumpDemoBoard (2, 2) = none ∧ getJumpMoves jumpDemoBoard (2, 2) ≠ ∅ :=
  ⟨jumpMoves_ignores_source jumpDemoBoard jumpDemoBoard2 (2, 2)
      (by intro q hq; simp [jumpDemoBoard2, hq]),
   by decide, by decide⟩

end NineSquare

namespace NineSquare

/-! ### C6 — win detection -/

/-- C6: `_check_win_condition` reports Player 1 exactly when every
Player 1 unit lies in rows 5-7, cols 5-7; otherwise it reports Player 2
exactly when every Player 2 unit lies in rows 0-2, cols 0-2; when both
conditions hold at once, Player 1 is reported (its test runs first). -/
theorem checkWin_characterization (b : Board) :
    (checkWinCondition b = some Player.P1 ↔
      ∀ p ∈ boardCells, b p = some Player.P1 →
        5 ≤ p.1 ∧ p.1 ≤ 7 ∧ 5 ≤ p.2 ∧ p.2 ≤ 7) ∧
    (checkWinCondition b = some Player.P2 ↔
      (¬ (∀ p ∈ boardCells, b p = some Player.P1 →
            5 ≤ p.1 ∧ p.1 ≤ 7 ∧ 5 ≤ p.2 ∧ p.2 ≤ 7) ∧
       ∀ p ∈ boardCells, b p = some Player.P2 →
         0 ≤ p.1 ∧ p.1 ≤ 2 ∧ 0 ≤ p.2 ∧ p.2 ≤ 2)) ∧
    ((∀ p ∈ boardCells, b p = some Player.P1 →
        5 ≤ p.1 ∧ p.1 ≤ 7 ∧ 5 ≤ p.2 ∧ p.2 ≤ 7) →
     (∀ p ∈ boardCells, b p = some Player.P2 →
        0 ≤ p.1 ∧ p.1 ≤ 2 ∧ 0 ≤ p.2 ∧ p.2 ≤ 2) →
     checkWinCondition b = some Player.P1) := by
  have hp1 : (∀ p ∈ boardCells.filter (fun p => b p = some Player.P1),
        isInHomeArea p Player.P1 = true) ↔
      ∀ p ∈ boardCells, b p = some Player.P1 →
        5 ≤ p.1 ∧ p.1 ≤ 7 ∧ 5 ≤ p.2 ∧ p.2 ≤ 7 := by
    simp [Finset.mem_filter, isInHomeArea, and_imp]
  have hp2 : (∀ p ∈ boardCells.filter (fun p => b p = some Player.P2),
        isInHomeArea p Player.P2 = true) ↔
      ∀ p ∈ boardCells, b p = some Player.P2 →
        0 ≤ p.1 ∧ p.1 ≤ 2 ∧ 0 ≤ p.2 ∧ p.2 ≤ 2 := by
    simp [Finset.mem_filter, isInHomeArea, and_imp]
  unfold checkWinCondition
  dsimp only
  split_ifs with h1 h2
  · refine ⟨⟨fun _ => hp1.mp h1, fun _ => rfl⟩, ?_, fun _ _ => rfl⟩
    exact ⟨(fun hc => by cases hc), fun hc => (hc.1 (hp1.mp h1)).elim⟩
  · refine ⟨?_, ?_, ?_⟩
    · exact ⟨(fun hc => by cases hc), fun hc => (h1 (hp1.mpr hc)).elim⟩
    · exact ⟨fun _ => ⟨fun hb => h1 (hp1.mpr hb), hp2.mp h2⟩, fun _ => rfl⟩
    · intro hc _; exact (h1 (hp1.mpr hc)).elim
  · refine ⟨?_, ?_, ?_⟩
    · exact ⟨(fun hc => by cases hc), fun hc => (h1 (hp1.mpr hc)).elim⟩
    · exact ⟨(fun hc => by cases hc), fun hc => (h2 (hp2.mpr hc.2)).elim⟩
    · intro hc _; exact (h1 (hp1.mpr hc)).elim

/-- C6, exercised: on `bothHomeBoard` both win conditions hold at once
and Player 1 is reported. -/
theorem checkWin_characterization_witness :
    checkWinCondition bothHomeBoard = some Player.P1 :=
  (checkWin_characterization bothHomeBoard).2.2 (by decide) (by decide)

/-! ### C8 — game over is terminal -/

/-- C8: once `game_over` is set, `handle_click` returns with the whole
state (board, current player, selection, move sets, winner, flags)
untouched, for every possible user input. -/
theorem game_over_noop (s : GameState) (a : Action) (h : s.game_over = true) :
    handleClick s a = s := by
  unfold handleClick
  simp [h]

/-- C8, exercised: on a finished game a board click changes nothing. -/
theorem game_over_noop_witness :
    handleClick gameOverState (Action.click (0, 0)) = gameOverState :=
  game_over_noop gameOverState (Action.click (0, 0)) rfl

/-! ### C9 — voluntary end of a jump chain -/

/-- C9: mid jump-sequence, the End Turn action runs `_end_turn`
unconditionally (no further-jump check): the selection and both move
sets are cleared, the jump flag drops, the win condition is evaluated,
and absent a winner the current player switches. -/
theorem endTurnClick_in_chain (s : GameState)
    (hgo : s.game_over = false) (hseq : s.in_jump_sequence = true) :
    handleClick s Action.endTurnClick = endTurn s ∧
    (endTurn s).selected_unit = none ∧
    (endTurn s).possible_moves = ∅ ∧
    (endTurn s).possible_jumps = ∅ ∧
    (endTurn s).in_jump_sequence = false ∧
    (checkWinCondition s.board = none →
      (endTurn s).current_player = otherPlayer s.current_player ∧
      (endTurn s).game_over = false) ∧
    (∀ w, checkWinCondition s.board = some w →
      (endTurn s).game_over = true ∧ (endTurn s).winner = some w) := by
  refine ⟨?_, ?_⟩
  · unfold handleClick
    simp [hgo, hseq]
  · unfold endTurn deselectUnit
    cases hw : checkWinCondition s.board with
    | none => simp [hw, hgo]
    | some w => simp [hw]

/-- C9, exercised: in the reachable jump-chain state a further jump is
still available, yet the End Turn action ends the turn and hands play to
Player 2. -/
theorem endTurnClick_in_chain_witness :
    jumpChainState.possible_jumps ≠ ∅ ∧
    handleClick jumpChainState Action.endTurnClick = endTurn jumpChainState ∧
    (endTurn jumpChainState).current_player =
      otherPlayer jumpChainState.current_player := by
  have h := endTurnClick_in_chain jumpChainState (by decide) (by decide)
  exact ⟨by decide, h.1, (h.2.2.2.2.2.1 (by decide)).1⟩

end NineSquare

namespace NineSquare

/-! ### C3 — clicks during a jump chain -/

theorem reachable_foldl (l : List Action) (s : GameState) (h : Reachable s) :
    Reachable (l.foldl handleClick s) := by
  induction l generalizing s with
  | nil => exact h
  | cons a l ih => exact ih (handleClick s a) (Reachable.step a h)

/-- C3 counterexample: `jumpChainState` is reachable and mid
jump-sequence with the active unit at (4,2), yet clicking that active
unit deselects it and clears the chain flag and the jump-target set
(the same-unit branch of `handle_click` runs before the jump-sequence
guards). -/
theorem jumpChain_click_active_piece_deselects :
    Reachable jumpChainState ∧
    jumpChainState.in_jump_sequence = true ∧
    jumpChainState.selected_unit = some (4, 2) ∧
    jumpChainState.possible_jumps ≠ ∅ ∧
    (handleClick jumpChainState (Action.click (4, 2))).selected_unit = none ∧
    (handleClick jumpChainState (Action.click (4, 2))).in_jump_sequence = false ∧
    (handleClick jumpChainState (Action.click (4, 2))).possible_jumps = ∅ := by
  refine ⟨?_, by decide, by decide, by decide, by decide, by decide, by decide⟩
  have h : Reachable (jumpChainClicks.foldl handleClick initState) :=
    reachable_foldl jumpChainClicks initState Reachable.init
  exact Reachable.step (Action.click (4, 2)) h

/-- C3 amended: mid jump-sequence, a board click that is neither the
active unit nor a valid further-jump target leaves the state entirely
unchanged; clicking the active unit itself, however, runs
`_deselect_unit`, clearing the selection, both move sets and the chain
flag (without ending the turn). -/
theorem jumpChain_click_behavior (s : GameState) (sel p : Pos)
    (hgo : s.game_over = false) (hseq : s.in_jump_sequence = true)
    (hsel : s.selected_unit = some sel) (hv : isValidPosition sel = true) :
    (p ≠ sel → p ∉ s.possible_jumps → handleClick s (Action.click p) = s) ∧
    handleClick s (Action.click sel) = deselectUnit s := by
  constructor
  · intro hne hnj
    unfold handleClick
    rcases hval : isValidPosition p with _ | _
    · simp [hgo, hval]
    · simp [hgo, hval, hsel, hne, hnj, hseq]
  · unfold handleClick
    simp [hgo, hv, hsel]

/-- C3 amended, exercised: in the reachable jump-chain state, clicking
(0,0) (not the active unit, not a jump target) is a strict no-op, and
clicking the active unit (4,2) deselects. -/
theorem jumpChain_click_behavior_witness :
    handleClick jumpChainState (Action.click (0, 0)) = jumpChainState ∧
    handleClick jumpChainState (Action.click (4, 2)) = deselectUnit jumpChainState := by
  have h := jumpChain_click_behavior jumpChainState (4, 2) (0, 0)
    (by decide) (by decide) (by decide) (by decide)
  exact ⟨h.1 (by decide) (by decide), h.2⟩

/-! ### C7 — jump from the Selected state -/

/-- C7: from a Selected state, clicking a valid jump target performs the
jump and recomputes jump targets from the landing cell: if any exist the
state enters the jump sequence with the same unit selected at its new
position and simple moves emptied; if none exist `_end_turn` runs at
once on the moved board, and absent a winner the current player
switches. -/
theorem selected_jump_transition (s : GameState) (sel p : Pos)
    (hgo : s.game_over = false) (hseq : s.in_jump_sequence = false)
    (hsel : s.selected_unit = some sel)
    (hb : s.board sel = some s.current_player)
    (hp : p ∈ s.possible_jumps) (hpe : s.board p = none)
    (hv : isValidPosition p = true) :
    (getJumpMoves (performJump s.board sel p) p ≠ ∅ →
      handleClick s (Action.click p) =
        { s with board := performJump s.board sel p
                 in_jump_sequence := true
                 selected_unit := some p
                 possible_moves := ∅
                 possible_jumps := getJumpMoves (performJump s.board sel p) p }) ∧
    (getJumpMoves (performJump s.board sel p) p = ∅ →
      handleClick s (Action.click p) = endTurn { s with board := performJump s.board sel p } ∧
      (checkWinCondition (performJump s.board sel p) = none →
        (handleClick s (Action.click p)).current_player = otherPlayer s.current_player ∧
        (handleClick s (Action.click p)).game_over = false ∧
        (handleClick s (Action.click p)).selected_unit = none ∧
        (handleClick s (Action.click p)).in_jump_sequence = false)) := by
  have hne : p ≠ sel := by
    intro hc
    rw [hc, hb] at hpe
    cases hpe
  constructor
  · intro hnj
    unfold handleClick
    simp [hgo, hv, hsel, hne, hp, hnj]
  · intro hj
    have heq : handleClick s (Action.click p) =
        endTurn { s with board := performJump s.board sel p } := by
      unfold handleClick
      simp [hgo, hv, hsel, hne, hp, hj]
    refine ⟨heq, ?_⟩
    intro hwin
    rw [heq]
    unfold endTurn deselectUnit
    simp [hwin, hgo]

/-- C7, exercised: in the reachable pre-jump state Player 1 has (2,2)
selected with jump target (4,2); clicking (4,2) performs the jump and,
since a further jump exists from (4,2), enters the jump sequence with
(4,2) selected and simple moves emptied. -/
theorem selected_jump_transition_witness :
    handleClick preJumpState (Action.click (4, 2)) =
      { preJumpState with
          board := performJump preJumpState.board (2, 2) (4, 2)
          in_jump_sequence := true
          selected_unit := some (4, 2)
          possible_moves := ∅
          possible_jumps :=
            getJumpMoves (performJump preJumpState.board (2, 2) (4, 2)) (4, 2) } :=
  (selected_jump_transition preJumpState (2, 2) (4, 2)
      (by decide) (by decide) (by decide) (by decide) (by decide) (by decide)
      (by decide)).1 (by decide)

end NineSquare

namespace NineSquare

/-! ### C1 — the piece-count invariant -/

theorem performJump_eq_swap (b : Board) (src tgt : Pos) (htgt : b tgt = none)
    (q : Pos) : performJump b src tgt q = b (Equiv.swap src tgt q) := by
  rcases eq_or_ne q src with rfl | h1
  · rw [Equiv.swap_apply_left]
    simp [performJump, updateBoard, htgt]
  · rcases eq_or_ne q tgt with rfl | h2
    · rw [Equiv.swap_apply_right]
      simp [performJump, updateBoard, h1]
    · rw [Equiv.swap_apply_of_ne_of_ne h1 h2]
      simp [performJump, updateBoard, h1, h2]

theorem countPieces_move (b : Board) (src tgt : Pos) (pl : Player)
    (hsrc : isValidPosition src = true) (htgtv : isValidPosition tgt = true)
    (hempty : b tgt = none) :
    countPieces (performJump b src tgt) pl = countPieces b pl := by
  unfold countPieces
  have hswap := performJump_eq_swap b src tgt hempty
  have hmaps : ∀ q, q ∈ boardCells → Equiv.swap src tgt q ∈ boardCells := by
    intro q hq
    rcases eq_or_ne q src with rfl | h1
    · rw [Equiv.swap_apply_left]; exact (mem_boardCells tgt).mpr htgtv
    · rcases eq_or_ne q tgt with rfl | h2
      · rw [Equiv.swap_apply_right]; exact (mem_boardCells src).mpr hsrc
      · rw [Equiv.swap_apply_of_ne_of_ne h1 h2]; exact hq
  apply Finset.card_bij (fun q _ => Equiv.swap src tgt q)
  · intro a ha
    rw [Finset.mem_filter] at ha ⊢
    refine ⟨hmaps a ha.1, ?_⟩
    rw [← hswap a]; exact ha.2
  · intro a _ a2 _ hq2
    exact (Equiv.swap src tgt).injective hq2
  · intro r hr
    rw [Finset.mem_filter] at hr
    refine ⟨Equiv.swap src tgt r, Finset.mem_filter.mpr ⟨hmaps r hr.1, ?_⟩, ?_⟩
    · rw [hswap, Equiv.swap_apply_self]; exact hr.2
    · exact Equiv.swap_apply_self src tgt r

end NineSquare

namespace NineSquare

theorem performSimpleMove_eq_performJump (b : Board) (src tgt : Pos) :
    performSimpleMove b src tgt = performJump b src tgt := rfl

theorem inv_deselect (s : GameState) (h : Inv s) : Inv (deselectUnit s) := by
  obtain ⟨h1, h2, -, -, -⟩ := h
  refine ⟨h1, h2, ?_, ?_, ?_⟩ <;> simp [deselectUnit]

theorem inv_endTurn (s : GameState)
    (h1 : countPieces s.board Player.P1 = 9)
    (h2 : countPieces s.board Player.P2 = 9) :
    Inv (endTurn s) := by
  unfold endTurn
  dsimp only
  split <;>
    exact ⟨h1, h2, by simp [deselectUnit], by simp [deselectUnit],
      by simp [deselectUnit]⟩

theorem inv_select (s : GameState) (p : Pos) (h : Inv s)
    (hb : s.board p = some s.current_player) (hv : isValidPosition p = true) :
    Inv (selectUnit s p) := by
  obtain ⟨h1, h2, -, -, -⟩ := h
  refine ⟨h1, h2, ?_, ?_, ?_⟩
  · intro sel hsel
    have hps : p = sel := by
      simpa [selectUnit] using hsel
    subst hps
    exact ⟨hb, hv⟩
  · intro q hq
    exact getSimpleMoves_target_empty s.board p q hq
  · intro q hq
    exact getJumpMoves_target_empty s.board p q hq


theorem inv_step (s : GameState) (a : Action) (h : Inv s) :
    Inv (handleClick s a) := by
  cases a with
  | endTurnClick =>
      unfold handleClick
      dsimp only
      split
      · exact h
      · split
        · exact inv_endTurn s h.1 h.2.1
        · exact h
  | click p =>
      unfold handleClick
      dsimp only
      split
      · exact h
      · by_cases hval : isValidPosition p = true
        case neg => rw [if_neg hval]; exact h
        case pos =>
        rw [if_pos hval]
        cases hsu : s.selected_unit with
        | none =>
            dsimp only
            by_cases hb : s.board p = some s.current_player
            · rw [if_pos hb]; exact inv_select s p h hb hval
            · rw [if_neg hb]; exact h
        | some sel =>
            dsimp only
            obtain ⟨h1, h2, hselinv, hmoves, hjumps⟩ := h
            obtain ⟨hbsel, hselval⟩ := hselinv sel hsu
            by_cases hps : p = sel
            · rw [if_pos hps]
              exact inv_deselect s ⟨h1, h2, hselinv, hmoves, hjumps⟩
            · rw [if_neg hps]
              by_cases hpj : p ∈ s.possible_jumps
              · rw [if_pos hpj]
                obtain ⟨hpe, hpv⟩ := hjumps p hpj
                have hc1 : countPieces (performJump s.board sel p) Player.P1 = 9 := by
                  rw [countPieces_move s.board sel p Player.P1 hselval hpv hpe]
                  exact h1
                have hc2 : countPieces (performJump s.board sel p) Player.P2 = 9 := by
                  rw [countPieces_move s.board sel p Player.P2 hselval hpv hpe]
                  exact h2
                by_cases hnj : getJumpMoves (performJump s.board sel p) p ≠ ∅
                · rw [if_pos hnj]
                  refine ⟨hc1, hc2, ?_, ?_, ?_⟩
                  · intro sel2 hsel2
                    have hps2 : p = sel2 := by simpa using hsel2
                    subst hps2
                    refine ⟨?_, hpv⟩
                    show performJump s.board sel p p = some s.current_player
                    simpa [performJump, updateBoard, hps] using hbsel
                  · intro q hq
                    simp at hq
                  · intro q hq
                    exact getJumpMoves_target_empty (performJump s.board sel p) p q hq
                · rw [if_neg hnj]
                  exact inv_endTurn _ hc1 hc2
              · rw [if_neg hpj]
                by_cases hpm : p ∈ s.possible_moves ∧ s.in_jump_sequence = false
                · rw [if_pos hpm]
                  obtain ⟨hpe, hpv⟩ := hmoves p hpm.1
                  have hc1 : countPieces (performSimpleMove s.board sel p) Player.P1 = 9 := by
                    rw [performSimpleMove_eq_performJump,
                      countPieces_move s.board sel p Player.P1 hselval hpv hpe]
                    exact h1
                  have hc2 : countPieces (performSimpleMove s.board sel p) Player.P2 = 9 := by
                    rw [performSimpleMove_eq_performJump,
                      countPieces_move s.board sel p Player.P2 hselval hpv hpe]
                    exact h2
                  exact inv_endTurn _ hc1 hc2
                · rw [if_neg hpm]
                  by_cases hown : s.board p = some s.current_player ∧ s.in_jump_sequence = false
                  · rw [if_pos hown]
                    exact inv_select s p ⟨h1, h2, hselinv, hmoves, hjumps⟩ hown.1 hval
                  · rw [if_neg hown]
                    by_cases hij : s.in_jump_sequence = false
                    · rw [if_pos hij]
                      exact inv_deselect s ⟨h1, h2, hselinv, hmoves, hjumps⟩
                    · rw [if_neg hij]
                      exact ⟨h1, h2, hselinv, hmoves, hjumps⟩

theorem inv_init : Inv initState := by
  refine ⟨by decide, by decide, ?_, ?_, ?_⟩ <;> simp [initState]

theorem inv_reachable (s : GameState) (h : Reachable s) : Inv s := by
  induction h with
  | init => exact inv_init
  | step a _ ih => exact inv_step _ a ih

/-- C1: every state reachable from the initialized board by any sequence
of clicks and End Turn actions has exactly 9 Player 1 units and exactly
9 Player 2 units on the board — no action ever adds or removes a unit. -/
theorem piece_count_invariant (s : GameState) (h : Reachable s) :
    countPieces s.board Player.P1 = 9 ∧ countPieces s.board Player.P2 = 9 :=
  ⟨(inv_reachable s h).1, (inv_reachable s h).2.1⟩

/-- C1, exercised: the counts are 9 and 9 in the reachable mid-jump-chain
state (after four simple moves and a jump). -/
theorem piece_count_invariant_witness :
    countPieces jumpChainState.board Player.P1 = 9 ∧
    countPieces jumpChainState.board Player.P2 = 9 :=
  piece_count_invariant jumpChainState
    (Reachable.step (Action.click (4, 2))
      (reachable_foldl jumpChainClicks initState Reachable.init))

end NineSquare
